import Mathlib

/-!
Verification of the brigade-cd event gateway (mumoshu/brigade-cd).

The development shallowly embeds the decision logic of the two event
translation paths of the gateway:

* the GitHub webhook path (`pkg/webhook/github.go`): signature validation,
  issue-comment classification and enrichment, the emission filter, and
  the build recording calls;
* the custom-resource reconciliation path (package `customresource`):
  the resource-state-to-action decision and the single-trigger emission.

Go byte slices (request bodies, signatures, shared secrets, keyed-hash
digests) are modelled as `List Nat`; Go strings that are only compared,
split or concatenated stay `String`.  External collaborators (the project
store, the GitHub remote API, JSON marshalling) are modelled as oracle
fields of an environment record, and every externally visible side effect
(store reads, store writes, remote calls) is recorded in an explicit
effect trace, so that claims about "zero store operations" or "exactly
two trigger attempts" are statements about the trace.
-/

namespace BrigadeCD

/-! ## Go strings.Split (single-character separator)

`strings.Split(s, sep)` with a one-character separator.  Following Go,
the result is never empty: splitting the empty string yields `[""]`. -/

/-- Embedding of Go `strings.Split` over the character list of a string
(single-character separator). -/
def splitOnChar (sep : Char) : List Char → List String
  | [] => [""]
  | c :: cs =>
    if c = sep then
      "" :: splitOnChar sep cs
    else
      match splitOnChar sep cs with
      | [] => [String.mk [c]]
      | s :: rest => String.mk (c :: s.data) :: rest

/-- Embedding of Go `strings.Split (s, sep)` for a one-character `sep`. -/
def stringsSplit (s : String) (sep : Char) : List String :=
  splitOnChar sep s.data

/-! ## Webhook data model -/

/-- Embedding of `brigade.Revision` (commit SHA and git ref). -/
structure Revision where
  commit : String
  ref : String
deriving DecidableEq, Repr

/-- Embedding of `GithubOpts` (`pkg/webhook/github.go`).  The default
shared secret is a byte list, matching its use in signature validation. -/
structure GithubOpts where
  appID : Int
  defaultSharedSecret : List Nat
  emittedEvents : List String
deriving DecidableEq, Repr

/-- Embedding of the fields of `brigade.Project` the gateway reads: the
project id and the per-project shared secret (as bytes). -/
structure Project where
  id : String
  sharedSecret : List Nat
deriving DecidableEq, Repr

/-- The fields of `github.IssueCommentEvent` the handler reads: action,
repository full name, presence of pull-request links, the comment
author's association, and the installation id. -/
structure IssueCommentEvent where
  action : String
  repoFullName : String
  hasPRLinks : Bool
  authorAssociation : String
  installationID : Int
deriving DecidableEq, Repr

/-- The fields of a `github.PullRequest` the enrichment step reads. -/
structure PullRequest where
  headSHA : String
  number : Nat
deriving DecidableEq, Repr

/-- Embedding of `brigade.Build` as created by the webhook path.  The
payload is `none` when the Go `[]byte` is nil (no enrichment ran). -/
structure Build where
  projectID : String
  type : String
  provider : String
  revision : Revision
  payload : Option (List Nat)
deriving DecidableEq, Repr

/-! ## Effect traces

Every externally visible side effect of the handlers is recorded in an
explicit trace: project-store reads, build-store writes, the two remote
calls of enrichment, and (as pure instrumentation) entry into the
`build` helper before the emission filter runs. -/

/-- Observable side effects of the webhook handler. -/
inductive Eff
  | getProject (repo : String)
  | tokenMint
  | prFetch
  | buildAttempt (eventType : String)
  | createBuild (b : Build)
deriving DecidableEq, Repr

/-- Trigger attempts recorded in a trace, in order. -/
def attemptsOf (effs : List Eff) : List String :=
  effs.filterMap fun e =>
    match e with
    | Eff.buildAttempt t => some t
    | _ => none

/-- Event types of the builds actually written to the store, in order. -/
def buildTypesOf (effs : List Eff) : List String :=
  effs.filterMap fun e =>
    match e with
    | Eff.createBuild b => some b.type
    | _ => none

/-- Builds written to the store, in order. -/
def buildsOf (effs : List Eff) : List Build :=
  effs.filterMap fun e =>
    match e with
    | Eff.createBuild b => some b
    | _ => none

/-- Store writes in a trace (build creations). -/
def storeWritesOf (effs : List Eff) : List Eff :=
  effs.filter fun e =>
    match e with
    | Eff.createBuild _ => true
    | _ => false

/-- Remote calls in a trace (token exchange and pull-request fetch). -/
def remoteCallsOf (effs : List Eff) : List Eff :=
  effs.filter fun e =>
    match e with
    | Eff.tokenMint => true
    | Eff.prFetch => true
    | _ => false

/-! ## shouldEmit (the emission filter) and isAllowedAuthor -/

/-- Embedding of `githubHook.shouldEmit`: split the candidate on the
colon, take segment 0 as the event and segment 1 (when present) as the
action, and accept when some configured pattern is the wildcard, the
bare event, or `event ++ ":" ++ action`.  The split is never empty, so
the `getD` for segment 0 matches the unchecked Go index. -/
def shouldEmit (emittedEvents : List String) (eventType : String) : Bool :=
  let eventAction := stringsSplit eventType ':'
  let event := eventAction.getD 0 ""
  let action := if 1 < eventAction.length then eventAction.getD 1 "" else ""
  emittedEvents.any fun e => e = "*" || e = event || e = event ++ ":" ++ action

/-- Embedding of `githubHook.isAllowedAuthor`: linear scan of the
configured author-association allow-list. -/
def isAllowedAuthor (allowedAuthors : List String) (author : String) : Bool :=
  allowedAuthors.any fun a => a = author

/-! ## Signature validation -/

/-- Embedding of Go `crypto/subtle.ConstantTimeCompare` over byte lists:
0 when the lengths differ, otherwise 1 exactly when the accumulated OR
of the bytewise XORs is zero. -/
def constantTimeCompare (x y : List Nat) : Nat :=
  if x.length ≠ y.length then 0
  else if (List.zipWith (fun a b => a ^^^ b) x y).foldl (fun v w => v ||| w) 0 = 0
  then 1 else 0

/-- Embedding of `validateSignature`: compute the keyed hash of the
payload under the secret and compare it with the supplied signature via
the constant-time comparison.  The keyed-hash function itself
(`SHA1HMAC`, defined outside the covered sources) is a parameter. -/
def validateSignature (hmac : List Nat → List Nat → List Nat)
    (signature secretKey payload : List Nat) : Except String Unit :=
  let sum := hmac secretKey payload
  if constantTimeCompare sum signature = 1 then Except.ok ()
  else Except.error "payload signature check failed"

/-! ## The webhook pipeline (`pkg/webhook/github.go`) -/

/-- Embedding of the webhook `Payload` record assembled by
`handleIssueCommentEvent`.  The record's definition lives outside the
covered sources; the field set mirrors the construction site in
`pkg/webhook/github.go` and the BuildPayload shape of the spec.  The
`body` field stands for the re-parsed raw delivery body. -/
structure WPayload where
  body : List Nat
  appID : Int
  instID : Int
  type : String
  token : String
  tokenExpires : Nat
  commit : String
  branch : String
deriving DecidableEq, Repr

/-- External collaborators of the webhook handler, as oracles: the
keyed-hash function, the configured options and allow-list, the project
store, and the outcomes of the remote/serialization steps of
enrichment.  `prGet` yields the pull request together with the HTTP
status code of the fetch, mirroring the Go pair (result, response). -/
structure HookEnv where
  hmac : List Nat → List Nat → List Nat
  opts : GithubOpts
  allowedAuthors : List String
  getProject : String → Option Project
  clientOk : Bool
  instToken : Option (String × Nat)
  prGet : Except Unit (PullRequest × Nat)
  reparseOk : Bool
  marshalPayload : WPayload → Option (List Nat)

/-- The shared secret resolved for a project: the per-project secret
when set, else the configured default. -/
def resolvedSecret (env : HookEnv) (proj : Project) : List Nat :=
  if proj.sharedSecret = [] then env.opts.defaultSharedSecret
  else proj.sharedSecret

/-- One inbound delivery as seen by `handleIssueComment`: the body read
(`none` models a read failure), the signature header bytes, and the
parse outcome (`none` models both a parse failure and a payload of an
unexpected type). -/
structure Request where
  body : Option (List Nat)
  signature : List Nat
  parsed : Option IssueCommentEvent

/-- Result of the enrichment step `handleIssueCommentEvent`: the
(possibly updated) revision, the payload bytes handed back to the
caller, an error response already written (the Go code writes it and
then returns normally, so the caller keeps going), and the remote-call
trace.  `panic` models the nil-pointer dereference reachable when the
pull-request fetch returns a non-200 response together with a nil
error. -/
inductive ICEResult
  | panic (effs : List Eff)
  | done (rev : Revision) (payload : Option (List Nat))
      (earlyResp : Option Nat) (effs : List Eff)
deriving DecidableEq, Repr

/-- Effect trace of an enrichment outcome. -/
def ICEResult.effs : ICEResult → List Eff
  | ICEResult.panic effs => effs
  | ICEResult.done _ _ _ effs => effs

/-- Embedding of `getPRFromIssueComment`: create an installation-token
client (local, no remote call), check that the repo full name splits on
the slash into exactly two segments, then perform the remote fetch.
The result mirrors the Go pair (pull request, error); the branch that
sees a fetch with a non-200 status returns neither a pull request nor
an error, faithfully to the source, which there returns a nil pull
request and the nil `err`. -/
def getPRFromIssueComment (env : HookEnv) (ice : IssueCommentEvent) :
    Option PullRequest × Option String × List Eff :=
  if ¬ env.clientOk then (none, some "Auth Failed", [])
  else if (stringsSplit ice.repoFullName '/').length ≠ 2 then
    (none, some "invalid repo name", [])
  else
    match env.prGet with
    | Except.error _ => (none, some "failed to get pull request", [Eff.prFetch])
    | Except.ok (pr, code) =>
      if code ≠ 200 then (none, none, [Eff.prFetch])
      else (some pr, none, [Eff.prFetch])

/-- Embedding of `handleIssueCommentEvent`: require both the app id and
the installation id, exchange the installation token, fetch the linked
pull request, populate the revision from the pull request head, rebuild
the payload, and return.  Every failure path hands back the unchanged
revision and the raw body after writing an error response. -/
def handleIssueCommentEventM (env : HookEnv) (ice : IssueCommentEvent)
    (rev : Revision) (body : List Nat) : ICEResult :=
  let appID := env.opts.appID
  let instID := ice.installationID
  if appID = 0 ∨ instID = 0 then
    ICEResult.done rev (some body) (some 403) []
  else
    match env.instToken with
    | none => ICEResult.done rev (some body) (some 403) [Eff.tokenMint]
    | some (tok, timeout) =>
      match getPRFromIssueComment env ice with
      | (_, some _, effs) =>
        ICEResult.done rev (some body) (some 500) (Eff.tokenMint :: effs)
      | (none, none, effs) => ICEResult.panic (Eff.tokenMint :: effs)
      | (some pr, none, effs) =>
        let rev2 : Revision :=
          { commit := pr.headSHA,
            ref := "refs/pull/" ++ toString pr.number ++ "/head" }
        let res : WPayload :=
          { body := body, appID := appID, instID := instID,
            type := "issue_comment", token := tok, tokenExpires := timeout,
            commit := rev2.commit, branch := rev2.ref }
        if ¬ env.reparseOk then
          ICEResult.done rev2 (some body) (some 400) (Eff.tokenMint :: effs)
        else
          match env.marshalPayload res with
          | none => ICEResult.done rev2 (some body) (some 500) (Eff.tokenMint :: effs)
          | some pl => ICEResult.done rev2 (some pl) none (Eff.tokenMint :: effs)

/-- Effects of one call of `githubHook.build`: the attempt itself is
recorded as instrumentation, and the store write happens exactly when
the emission filter accepts the event type. -/
def buildEffs (env : HookEnv) (eventType : String) (rev : Revision)
    (payload : Option (List Nat)) (proj : Project) : List Eff :=
  Eff.buildAttempt eventType ::
    (if shouldEmit env.opts.emittedEvents eventType then
      [Eff.createBuild
        { projectID := proj.id, type := eventType, provider := "github",
          revision := rev, payload := payload }]
    else [])

/-- HTTP outcome of the webhook handler: the first response status
written on the connection, or a panic.  When the Go code writes a
second status (the enrichment-failure paths), the first one stands. -/
inductive HResp
  | panic
  | code (status : Nat)
deriving DecidableEq, Repr

/-- Embedding of `githubHook.handleIssueComment`: read body, parse,
look up the project (to resolve the shared secret), validate the
signature, run enrichment for created/edited comments with pull-request
links from allowed authors, default the revision ref, and schedule the
unqualified build plus — when the action is non-empty — the qualified
one. -/
def handleIssueComment (env : HookEnv) (eventType : String) (req : Request) :
    HResp × List Eff :=
  match req.body with
  | none => (HResp.code 400, [])
  | some body =>
    match req.parsed with
    | none => (HResp.code 400, [])
    | some ice =>
      let action := ice.action
      let repo := ice.repoFullName
      match env.getProject repo with
      | none => (HResp.code 400, [Eff.getProject repo])
      | some proj =>
        let sharedSecret := resolvedSecret env proj
        if sharedSecret = [] then (HResp.code 500, [Eff.getProject repo])
        else match validateSignature env.hmac req.signature sharedSecret body with
        | Except.error _ => (HResp.code 403, [Eff.getProject repo])
        | Except.ok _ =>
          let rev0 : Revision := { commit := "", ref := "" }
          let step : ICEResult :=
            if action = "created" ∨ action = "edited" then
              if ice.hasPRLinks then
                if ¬ isAllowedAuthor env.allowedAuthors ice.authorAssociation then
                  ICEResult.done rev0 none none []
                else
                  handleIssueCommentEventM env ice rev0 body
              else ICEResult.done rev0 none none []
            else ICEResult.done rev0 none none []
          match step with
          | ICEResult.panic effs => (HResp.panic, Eff.getProject repo :: effs)
          | ICEResult.done rev payload early effs =>
            let rev1 :=
              if rev.ref = "" then { rev with ref := "refs/heads/master" }
              else rev
            let e1 := buildEffs env eventType rev1 payload proj
            let e2 :=
              if action ≠ "" then
                buildEffs env (eventType ++ ":" ++ action) rev1 payload proj
              else []
            (HResp.code (early.getD 200),
              Eff.getProject repo :: (effs ++ (e1 ++ e2)))

/-! ## The custom-resource path (package customresource) -/

/-- Embedding of Go `strings.ToLower` for the ASCII kind names at
stake: lower-case every character. -/
def strToLower (s : String) : String := String.mk (s.data.map Char.toLower)

/-- Lookup in an annotation map; Go map indexing yields the zero value
(the empty string) for a missing key. -/
def annGet (anns : List (String × String)) (k : String) : String :=
  match anns.find? (fun p => p.1 == k) with
  | some p => p.2
  | none => ""

/-- The fields of the reconciled custom resource the handler reads
(`customresource.Object`): kind, annotations, presence of the deletion
timestamp, and the status phase. -/
structure RObject where
  kind : String
  annotations : List (String × String)
  hasDeletionTimestamp : Bool
  statusPhase : String
deriving DecidableEq, Repr

/-- Embedding of `customresource.Mapping`. -/
structure Mapping where
  group : String
  version : String
  kind : String
  brigadeProject : String
deriving DecidableEq, Repr

/-- Embedding of the configuration fields of `customresource.Handler`. -/
structure CRHandler where
  brigadeProject : String
  eventTypeActionApply : String
  eventTypeActionDestroy : String
  eventTypeActionPlan : String
  defaultBranch : String
  appID : Int
deriving DecidableEq, Repr

/-- The handler `controller.Run` constructs for one mapping entry: the
three action event types are the lower-cased kind qualified by
apply/plan/destroy, and the default branch is "master". -/
def mkHandler (appID : Int) (m : Mapping) : CRHandler :=
  let lkind := strToLower m.kind
  { brigadeProject := m.brigadeProject
    eventTypeActionDestroy := lkind ++ ":destroy"
    eventTypeActionApply := lkind ++ ":apply"
    eventTypeActionPlan := lkind ++ ":plan"
    defaultBranch := "master"
    appID := appID }

/-- Embedding of the customresource `Payload` record.  `body` holds the
object stored into the payload (assigned before the status-phase
write near the end of `HandleState`). -/
structure CRPayload where
  type : String
  token : String
  tokenExpires : Nat
  body : Option RObject
  appID : Int
  instID : Int
  commit : String
  branch : String
  owner : String
  repo : String
  pull : String
  pullURL : String
deriving DecidableEq, Repr

/-- Embedding of the build record created on the resource path.  The
payload is kept as the structured record; its JSON serialization is
abstracted by the environment's marshalling oracle. -/
structure CRBuild where
  projectID : String
  type : String
  provider : String
  revCommit : String
  revRef : String
  payload : CRPayload
deriving DecidableEq, Repr

/-- Observable side effects on the resource path. -/
inductive CREff
  | getProject (name : String)
  | tokenMint
  | createBuild (b : CRBuild)
deriving DecidableEq, Repr

/-- Event types of the builds written to the store on the resource
path, in order. -/
def crBuildTypesOf (effs : List CREff) : List String :=
  effs.filterMap fun e =>
    match e with
    | CREff.createBuild b => some b.type
    | _ => none

/-- External collaborators of the resource handler: the project store,
the token exchange, the two JSON marshalling steps, the build-store
write and the final state packing. -/
structure CREnv where
  getProject : String → Option Project
  instToken : Option (String × Nat)
  marshalObjOk : Bool
  marshalPayloadOk : Bool
  createBuildOk : Bool
  packOk : Bool

/-- Embedding of Go `strconv.Atoi`: an optional sign followed by at
least one decimal digit; anything else is an error.  (Overflow is out
of scope for the inputs at stake.) -/
def goAtoi (s : String) : Option Int :=
  match s.data with
  | [] => none
  | c :: cs =>
    let signDigits : Bool × List Char :=
      if c = '-' then (true, cs)
      else if c = '+' then (false, cs)
      else (false, c :: cs)
    match signDigits with
    | (neg, ds) =>
      if ds = [] then none
      else if ds.all (fun d => d.isDigit) then
        let n : Nat := ds.foldl (fun acc d => acc * 10 + (d.toNat - 48)) 0
        some (if neg then -(n : Int) else (n : Int))
      else none

/-- Outcome of `HandleState`: a runtime panic (the unchecked slash
split), an error returned to the reconciliation runtime, or success
with the object packed back to the runtime; in each case the recorded
effect trace. -/
inductive CRResult
  | panic (effs : List CREff)
  | err (effs : List CREff)
  | ok (packed : RObject) (effs : List CREff)
deriving DecidableEq, Repr

/-- Effect trace of a `HandleState` outcome. -/
def CRResult.effs : CRResult → List CREff
  | CRResult.panic effs => effs
  | CRResult.err effs => effs
  | CRResult.ok _ effs => effs

/-- The object packed back on success. -/
def CRResult.packed : CRResult → Option RObject
  | CRResult.ok o _ => some o
  | _ => none

/-- Outcome of the part of `HandleState` past the slash split, which
cannot panic: an error or a success. -/
inductive CROutcome
  | err (effs : List CREff)
  | ok (packed : RObject) (effs : List CREff)
deriving DecidableEq, Repr

/-- Inclusion of panic-free outcomes into `CRResult`. -/
def CROutcome.toCRResult : CROutcome → CRResult
  | CROutcome.err effs => CRResult.err effs
  | CROutcome.ok o effs => CRResult.ok o effs

/-- Embedding of the action decision of `HandleState`: destroy when the
deletion timestamp is set; otherwise the approved/dry-run condition is
grouped following Go operator precedence, where the conjunction binds
tighter than the disjunctions, so the dry-run annotation is consulted
only when the approved annotation is literally "yes". -/
def eventTypeActionOf (h : CRHandler) (deleted : Bool)
    (approvedStr dryRunStr : String) : String :=
  if deleted then h.eventTypeActionDestroy
  else if approvedStr = "" ∨ approvedStr = "true" ∨
      (approvedStr = "yes" ∧
        (dryRunStr = "" ∨ dryRunStr = "no" ∨ dryRunStr = "false")) then
    h.eventTypeActionApply
  else h.eventTypeActionPlan

/-- The part of `Handler.HandleState` after the owner/repo split (the
annotation reads are recomputed from the object; they are pure).  Go
note on the final phase write: `o := s.Object` copies the object by
value, so `o.Status.Phase = "completed"` mutates a local copy, while
`state.Pack(&s, ss)` packs the untouched `s`; the write is therefore
lost and the packed object is the input object unchanged.  The model
keeps the (dead) updated copy to mirror the source. -/
def handleStateRest (h : CRHandler) (env : CREnv) (o : RObject)
    (owner repo : String) : CROutcome :=
  let eventType := strToLower o.kind
  let instIDStr := annGet o.annotations "cd.brigade.sh/github-app-inst-id"
  let approvedStr := annGet o.annotations "cd.brigade.sh/approved"
  let dryRunStr := annGet o.annotations "cd.brigade.sh/dry-run"
  let gitCommitId := annGet o.annotations "cd.brigade.sh/git-commit"
  let gitBranch := annGet o.annotations "cd.brigade.sh/git-branch"
  let pullIdStr := annGet o.annotations "cd.brigade.sh/github-pull-id"
  let p0 : CRPayload :=
    { type := eventType, token := "", tokenExpires := 0, body := none,
      appID := 0, instID := 0, commit := "", branch := "",
      owner := owner, repo := repo, pull := pullIdStr, pullURL := "" }
  let p1 := if gitCommitId ≠ "" then { p0 with commit := gitCommitId }
            else { p0 with branch := h.defaultBranch }
  let p2 := if gitBranch ≠ "" then { p1 with branch := gitBranch } else p1
  let p3 := { p2 with appID := h.appID }
  let instIDRes : Option (Int × CRPayload) :=
    if instIDStr.length > 0 then
      match goAtoi instIDStr with
      | none => none
      | some n => some (n, { p3 with instID := n })
    else some (0, p3)
  match instIDRes with
  | none => CROutcome.err []
  | some (instID, p4) =>
    match env.getProject h.brigadeProject with
    | none => CROutcome.err [CREff.getProject h.brigadeProject]
    | some proj =>
      let tokRes : Option (CRPayload × List CREff) :=
        if instID > 0 ∧ h.appID > 0 then
          match env.instToken with
          | none => none
          | some (tok, timeout) =>
            some ({ p4 with token := tok, tokenExpires := timeout },
              [CREff.getProject h.brigadeProject, CREff.tokenMint])
        else some (p4, [CREff.getProject h.brigadeProject])
      match tokRes with
      | none => CROutcome.err [CREff.getProject h.brigadeProject, CREff.tokenMint]
      | some (p5, effs) =>
        if ¬ env.marshalObjOk then CROutcome.err effs
        else
          let pullUrl := "https://api.github.com/repos/" ++ h.brigadeProject
              ++ "/pulls/" ++ pullIdStr
          let p6 := { p5 with pullURL := pullUrl, body := some o }
          let act := eventTypeActionOf h o.hasDeletionTimestamp approvedStr dryRunStr
          if ¬ env.marshalPayloadOk then CROutcome.err effs
          else
            let b : CRBuild :=
              { projectID := proj.id, type := act, provider := "brigade-cd",
                revCommit := p6.commit, revRef := "refs/heads/" ++ p6.branch,
                payload := p6 }
            let effs2 := effs ++ [CREff.createBuild b]
            if ¬ env.createBuildOk then CROutcome.err effs2
            else
              let _phaseUpdated :=
                if o.statusPhase ≠ "completed" then
                  { o with statusPhase := "completed" }
                else o
              if env.packOk then CROutcome.ok o effs2
              else CROutcome.err effs2

/-- Embedding of `Handler.HandleState`: read the annotations, split the
git-repo annotation on the slash with unchecked indexing at positions 0
and 1 (a missing slash is a runtime panic), then run the rest of the
reconciliation. -/
def HandleState (h : CRHandler) (env : CREnv) (o : RObject) : CRResult :=
  let gitRepo := annGet o.annotations "cd.brigade.sh/git-repo"
  let tmp := stringsSplit gitRepo '/'
  match tmp.get? 1 with
  | none => CRResult.panic []
  | some repo => (handleStateRest h env o (tmp.getD 0 "") repo).toCRResult

/-! ## Concrete sample inputs (used by counterexamples and witnesses) -/

/-- A sample mapping entry for the resource kind "ReleaseSet". -/
def sampleMapping : Mapping :=
  { group := "helmfile.helm.sh", version := "v1alpha1",
    kind := "ReleaseSet", brigadeProject := "myproj" }

/-- The handler built for `sampleMapping` with app id 0. -/
def sampleCRHandler : CRHandler := mkHandler 0 sampleMapping

/-- A benign resource environment: the project exists and every
marshalling, store and pack step succeeds. -/
def sampleCREnv : CREnv :=
  { getProject := fun n =>
      if n = "myproj" then some { id := "P1", sharedSecret := [] } else none
    instToken := some ("tok", 9)
    marshalObjOk := true
    marshalPayloadOk := true
    createBuildOk := true
    packOk := true }

/-- A resource environment whose project store has no project at all. -/
def emptyStoreCREnv : CREnv :=
  { getProject := fun _ => none
    instToken := some ("tok", 9)
    marshalObjOk := true
    marshalPayloadOk := true
    createBuildOk := true
    packOk := true }

/-- A snapshot with no deletion marker, no approved annotation and the
dry-run annotation set to "true". -/
def dryRunObj : RObject :=
  { kind := "ReleaseSet"
    annotations := [("cd.brigade.sh/git-repo", "mumoshu/demo"),
                    ("cd.brigade.sh/dry-run", "true")]
    hasDeletionTimestamp := false
    statusPhase := "" }

/-- A snapshot with a deletion marker and an empty status phase. -/
def deletionObj : RObject :=
  { kind := "ReleaseSet"
    annotations := [("cd.brigade.sh/git-repo", "mumoshu/demo")]
    hasDeletionTimestamp := true
    statusPhase := "" }

/-- A webhook environment for concrete runs: the keyed hash always
yields the digest `[7]`, the project "mumoshu/repo" exists with secret
`[5]`, the filter emits everything, and the app id is 0 (unset). -/
def sampleHookEnv : HookEnv :=
  { hmac := fun _ _ => [7]
    opts := { appID := 0, defaultSharedSecret := [], emittedEvents := ["*"] }
    allowedAuthors := ["OWNER"]
    getProject := fun r =>
      if r = "mumoshu/repo" then some { id := "P1", sharedSecret := [5] }
      else none
    clientOk := true
    instToken := some ("tok", 9)
    prGet := Except.ok ({ headSHA := "abc", number := 3 }, 200)
    reparseOk := true
    marshalPayload := fun _ => some [9, 9] }

/-- A created issue comment on a pull-request-linked issue from an
allowed author, with installation id 5. -/
def sampleICE : IssueCommentEvent :=
  { action := "created", repoFullName := "mumoshu/repo", hasPRLinks := true,
    authorAssociation := "OWNER", installationID := 5 }

/-- The same comment event from an author outside the allow-list. -/
def outsiderICE : IssueCommentEvent :=
  { action := "created", repoFullName := "mumoshu/repo", hasPRLinks := true,
    authorAssociation := "NONE", installationID := 5 }

/-- A delivery of `sampleICE` whose signature does not match the digest. -/
def reqBadSig : Request :=
  { body := some [1], signature := [8], parsed := some sampleICE }

/-- A delivery of `sampleICE` with a valid signature. -/
def reqGoodSig : Request :=
  { body := some [1], signature := [7], parsed := some sampleICE }

/-- A validly signed delivery of `outsiderICE`. -/
def reqOutsider : Request :=
  { body := some [1], signature := [7], parsed := some outsiderICE }

/-! ## Theorems: library lemmas about the split -/

theorem splitOnChar_ne_nil (sep : Char) (cs : List Char) :
    splitOnChar sep cs ≠ [] := by
  cases cs with
  | nil => simp [splitOnChar]
  | cons c cs =>
    simp only [splitOnChar]
    split
    · simp
    · split
      · simp
      · simp

theorem splitOnChar_length_pos (sep : Char) (cs : List Char) :
    0 < (splitOnChar sep cs).length := by
  have h := splitOnChar_ne_nil sep cs
  cases hh : splitOnChar sep cs with
  | nil => exact absurd hh h
  | cons a l => simp

/-- When the separator occurs in the input, the split has at least two
segments (so indexing positions 0 and 1 is in bounds). -/
theorem splitOnChar_length_ge_two (sep : Char) (cs : List Char)
    (h : sep ∈ cs) : 2 ≤ (splitOnChar sep cs).length := by
  induction cs with
  | nil => cases h
  | cons c cs ih =>
    simp only [splitOnChar]
    by_cases hc : c = sep
    · subst hc
      rw [if_pos rfl]
      have := splitOnChar_length_pos c cs
      simp only [List.length_cons]
      omega
    · have hmem : sep ∈ cs := by
        cases h with
        | head => exact absurd rfl (fun hh => hc hh.symm)
        | tail _ hm => exact hm
      have h2 := ih hmem
      simp only [if_neg hc]
      cases hh : splitOnChar sep cs with
      | nil => exact absurd hh (splitOnChar_ne_nil sep cs)
      | cons s rest =>
        simp only [List.length_cons]
        rw [hh] at h2
        simp only [List.length_cons] at h2
        omega

/-- Splitting a separator-free list yields a single segment. -/
theorem splitOnChar_not_mem (sep : Char) (cs : List Char)
    (h : sep ∉ cs) : splitOnChar sep cs = [String.mk cs] := by
  induction cs with
  | nil => simp [splitOnChar]
  | cons c cs ih =>
    have hc : c ≠ sep := fun hh => h (hh ▸ List.mem_cons_self c cs)
    have hcs : sep ∉ cs := fun hm => h (List.mem_cons_of_mem c hm)
    simp only [splitOnChar, if_neg hc, ih hcs]

/-- Splitting at the first separator occurrence: a separator-free prefix
becomes the head segment. -/
theorem splitOnChar_append (sep : Char) (xs ys : List Char)
    (h : sep ∉ xs) :
    splitOnChar sep (xs ++ sep :: ys) = String.mk xs :: splitOnChar sep ys := by
  induction xs with
  | nil => simp [splitOnChar]
  | cons c cs ih =>
    have hc : c ≠ sep := fun hh => h (hh ▸ List.mem_cons_self c cs)
    have hcs : sep ∉ cs := fun hm => h (List.mem_cons_of_mem c hm)
    simp only [List.cons_append, splitOnChar, if_neg hc]
    rw [show cs.append (sep :: ys) = cs ++ sep :: ys from rfl, ih hcs]

/-! ## Theorems: the constant-time comparison -/

theorem nat_or_eq_zero (a b : Nat) : a ||| b = 0 ↔ a = 0 ∧ b = 0 := by
  constructor
  · intro h
    constructor
    · apply Nat.eq_of_testBit_eq
      intro k
      have hk := congrArg (fun n => Nat.testBit n k) h
      simp only [Nat.testBit_or, Nat.zero_testBit, Bool.or_eq_false_iff] at hk
      simp [hk.1]
    · apply Nat.eq_of_testBit_eq
      intro k
      have hk := congrArg (fun n => Nat.testBit n k) h
      simp only [Nat.testBit_or, Nat.zero_testBit, Bool.or_eq_false_iff] at hk
      simp [hk.2]
  · rintro ⟨rfl, rfl⟩
    rfl

theorem foldl_or_eq_zero (l : List Nat) (v : Nat) :
    l.foldl (fun a w => a ||| w) v = 0 ↔ v = 0 ∧ ∀ w ∈ l, w = 0 := by
  induction l generalizing v with
  | nil => simp
  | cons a l ih =>
    simp only [List.foldl_cons, ih, List.mem_cons]
    constructor
    · rintro ⟨hv, hall⟩
      have hva : v = 0 ∧ a = 0 := (nat_or_eq_zero v a).mp hv
      refine ⟨hva.1, ?_⟩
      intro w hw
      cases hw with
      | inl h => exact h ▸ hva.2
      | inr h => exact hall w h
    · rintro ⟨hv, hall⟩
      have ha : a = 0 := hall a (Or.inl rfl)
      refine ⟨?_, fun w hw => hall w (Or.inr hw)⟩
      simp [hv, ha]

theorem constantTimeCompare_eq_one (x y : List Nat) :
    constantTimeCompare x y = 1 ↔ x = y := by
  unfold constantTimeCompare
  by_cases hlen : x.length = y.length
  · simp only [hlen, ne_eq, not_true_eq_false, if_false]
    constructor
    · intro h
      by_cases hz :
          (List.zipWith (fun a b => a ^^^ b) x y).foldl (fun v w => v ||| w) 0 = 0
      · rw [foldl_or_eq_zero] at hz
        have hall := hz.2
        apply List.ext_getElem hlen
        intro i h1 h2
        have hmem : x[i] ^^^ y[i] ∈ List.zipWith (fun a b => a ^^^ b) x y := by
          have hi : i < (List.zipWith (fun a b => a ^^^ b) x y).length := by
            rw [List.length_zipWith]
            omega
          have := List.getElem_mem hi
          simpa using this
        have := hall _ hmem
        exact Nat.xor_eq_zero.mp this
      · rw [if_neg hz] at h
        omega
    · intro h
      subst h
      have hz : (List.zipWith (fun a b => a ^^^ b) x x).foldl (fun v w => v ||| w) 0 = 0 := by
        rw [foldl_or_eq_zero]
        refine ⟨rfl, ?_⟩
        intro w hw
        rw [List.mem_iff_getElem] at hw
        obtain ⟨i, hi, hwi⟩ := hw
        rw [List.getElem_zipWith] at hwi
        simp [← hwi]
      rw [if_pos hz]
  · rw [if_pos (by exact fun hh => hlen hh)]
    constructor
    · omega
    · intro h
      exact absurd (h ▸ rfl) hlen

theorem validateSignature_ok_iff (hmac : List Nat → List Nat → List Nat)
    (signature secretKey payload : List Nat) :
    validateSignature hmac signature secretKey payload = Except.ok () ↔
      signature = hmac secretKey payload := by
  unfold validateSignature
  by_cases h : constantTimeCompare (hmac secretKey payload) signature = 1
  · rw [if_pos h]
    rw [constantTimeCompare_eq_one] at h
    simp [h.symm]
  · rw [if_neg h]
    rw [constantTimeCompare_eq_one] at h
    constructor
    · intro hc
      cases hc
    · intro hc
      exact absurd hc.symm h


/-! ## Theorems: signature validation helpers -/

theorem validateSignature_err (hmac : List Nat → List Nat → List Nat)
    (signature secretKey payload : List Nat)
    (h : signature ≠ hmac secretKey payload) :
    validateSignature hmac signature secretKey payload =
      Except.error "payload signature check failed" := by
  unfold validateSignature
  rw [if_neg]
  intro hc
  exact h ((constantTimeCompare_eq_one _ _).mp hc).symm

/-! ## Theorems: the emission filter -/

theorem stringsSplit_qualified (kind act : String)
    (hk : ':' ∉ kind.data) (ha : ':' ∉ act.data) :
    stringsSplit (kind ++ ":" ++ act) ':' = [kind, act] := by
  unfold stringsSplit
  have hdata : (kind ++ ":" ++ act).data = kind.data ++ ':' :: act.data := by
    simp [String.data_append]
  rw [hdata, splitOnChar_append _ _ _ hk, splitOnChar_not_mem _ _ ha]

theorem stringsSplit_unqualified (kind : String) (hk : ':' ∉ kind.data) :
    stringsSplit kind ':' = [kind] := by
  unfold stringsSplit
  rw [splitOnChar_not_mem _ _ hk]

theorem shouldEmit_qualified (ps : List String) (kind act : String)
    (hk : ':' ∉ kind.data) (ha : ':' ∉ act.data) :
    (shouldEmit ps (kind ++ ":" ++ act) = true ↔
      ∃ e ∈ ps, e = "*" ∨ e = kind ∨ e = kind ++ ":" ++ act) := by
  unfold shouldEmit
  rw [stringsSplit_qualified kind act hk ha]
  simp [List.any_eq_true, or_assoc]

theorem shouldEmit_unqualified (ps : List String) (kind : String)
    (hk : ':' ∉ kind.data) :
    (shouldEmit ps kind = true ↔
      ∃ e ∈ ps, e = "*" ∨ e = kind ∨ e = kind ++ ":") := by
  unfold shouldEmit
  rw [stringsSplit_unqualified kind hk]
  simp [List.any_eq_true, or_assoc]

/-! ## Theorems: enrichment produces no builds and cannot panic under a
well-behaved remote -/

theorem getPR_effs_subset (env : HookEnv) (ice : IssueCommentEvent) :
    ∀ e ∈ (getPRFromIssueComment env ice).2.2, e = Eff.prFetch := by
  intro e he
  unfold getPRFromIssueComment at he
  split at he
  · simp at he
  · split at he
    · simp at he
    · split at he
      · simp at he
        exact he
      · split at he
        all_goals simpa using he

theorem iceM_effs_subset (env : HookEnv) (ice : IssueCommentEvent)
    (rev : Revision) (body : List Nat) :
    ∀ e ∈ (handleIssueCommentEventM env ice rev body).effs,
      e = Eff.tokenMint ∨ e = Eff.prFetch := by
  intro e he
  have hpr := getPR_effs_subset env ice
  simp only [handleIssueCommentEventM] at he
  by_cases h0 : env.opts.appID = 0 ∨ ice.installationID = 0
  · rw [if_pos h0] at he
    simp [ICEResult.effs] at he
  · rw [if_neg h0] at he
    cases hit : env.instToken with
    | none =>
      rw [hit] at he
      simp [ICEResult.effs] at he
      simp [he]
    | some p =>
      obtain ⟨tok, timeout⟩ := p
      rw [hit] at he
      rcases hg : getPRFromIssueComment env ice with ⟨pr, errMsg, effs⟩
      have hsub : ∀ x ∈ effs, x = Eff.prFetch := by
        intro x hx
        have := hpr x
        rw [hg] at this
        exact this hx
      rw [hg] at he
      cases errMsg with
      | some msg =>
        simp [ICEResult.effs] at he
        rcases he with he | he
        · simp [he]
        · exact Or.inr (hsub e he)
      | none =>
        cases pr with
        | none =>
          simp [ICEResult.effs] at he
          rcases he with he | he
          · simp [he]
          · exact Or.inr (hsub e he)
        | some thePR =>
          by_cases hrp : env.reparseOk
          · simp only [ICEResult.effs, hrp, not_true, if_false] at he
            rcases hmp : env.marshalPayload
                { body := body, appID := env.opts.appID, instID := ice.installationID,
                  type := "issue_comment", token := tok, tokenExpires := timeout,
                  commit := thePR.headSHA,
                  branch := "refs/pull/" ++ toString thePR.number ++ "/head" } with _ | pl
            · rw [hmp] at he
              simp [ICEResult.effs] at he
              rcases he with he | he
              · simp [he]
              · exact Or.inr (hsub e he)
            · rw [hmp] at he
              simp [ICEResult.effs] at he
              rcases he with he | he
              · simp [he]
              · exact Or.inr (hsub e he)
          · simp [ICEResult.effs, hrp] at he
            rcases he with he | he
            · simp [he]
            · exact Or.inr (hsub e he)

theorem getPR_no_nil_nil (env : HookEnv) (ice : IssueCommentEvent)
    (hwf : ∀ pr c, env.prGet = Except.ok (pr, c) → c = 200) :
    ∀ effs, getPRFromIssueComment env ice ≠ (none, none, effs) := by
  intro effs hc
  unfold getPRFromIssueComment at hc
  split at hc
  · simp at hc
  · split at hc
    · simp at hc
    · split at hc
      · simp at hc
      · rename_i pr code heq
        split at hc
        · rename_i hcode
          exact hcode (hwf pr code heq)
        · simp at hc

theorem iceM_no_panic (env : HookEnv) (ice : IssueCommentEvent)
    (rev : Revision) (body : List Nat)
    (hwf : ∀ pr c, env.prGet = Except.ok (pr, c) → c = 200) :
    ∀ effs, handleIssueCommentEventM env ice rev body ≠ ICEResult.panic effs := by
  intro effs hc
  simp only [handleIssueCommentEventM] at hc
  by_cases h0 : env.opts.appID = 0 ∨ ice.installationID = 0
  · rw [if_pos h0] at hc
    simp at hc
  · rw [if_neg h0] at hc
    cases hit : env.instToken with
    | none =>
      rw [hit] at hc
      simp at hc
    | some p =>
      obtain ⟨tok, timeout⟩ := p
      rw [hit] at hc
      rcases hg : getPRFromIssueComment env ice with ⟨pr, errMsg, effs2⟩
      rw [hg] at hc
      cases errMsg with
      | some msg => simp at hc
      | none =>
        cases pr with
        | none => exact getPR_no_nil_nil env ice hwf effs2 hg
        | some thePR =>
          by_cases hrp : env.reparseOk
          · simp only [hrp, not_true, if_false] at hc
            rcases hmp : env.marshalPayload
                { body := body, appID := env.opts.appID, instID := ice.installationID,
                  type := "issue_comment", token := tok, tokenExpires := timeout,
                  commit := thePR.headSHA,
                  branch := "refs/pull/" ++ toString thePR.number ++ "/head" } with _ | pl
            · rw [hmp] at hc
              simp at hc
            · rw [hmp] at hc
              simp at hc
          · simp only [hrp] at hc
            simp at hc

theorem iceM_no_builds (env : HookEnv) (ice : IssueCommentEvent)
    (rev : Revision) (body : List Nat) :
    attemptsOf (handleIssueCommentEventM env ice rev body).effs = [] ∧
    buildTypesOf (handleIssueCommentEventM env ice rev body).effs = [] := by
  have hsub := iceM_effs_subset env ice rev body
  constructor
  · rw [attemptsOf, List.filterMap_eq_nil_iff]
    intro a ha
    rcases hsub a ha with h | h <;> simp [h]
  · rw [buildTypesOf, List.filterMap_eq_nil_iff]
    intro a ha
    rcases hsub a ha with h | h <;> simp [h]

/-! ## Theorems: trace computations -/

theorem buildEffs_attempts (env : HookEnv) (t : String) (rev : Revision)
    (payload : Option (List Nat)) (proj : Project) :
    attemptsOf (buildEffs env t rev payload proj) = [t] := by
  unfold buildEffs attemptsOf
  split <;> simp

theorem buildEffs_buildTypes (env : HookEnv) (t : String) (rev : Revision)
    (payload : Option (List Nat)) (proj : Project) :
    buildTypesOf (buildEffs env t rev payload proj) =
      if shouldEmit env.opts.emittedEvents t then [t] else [] := by
  unfold buildEffs buildTypesOf
  split <;> simp

theorem attemptsOf_append (l1 l2 : List Eff) :
    attemptsOf (l1 ++ l2) = attemptsOf l1 ++ attemptsOf l2 := by
  simp [attemptsOf]

theorem attemptsOf_getProject_cons (r : String) (l : List Eff) :
    attemptsOf (Eff.getProject r :: l) = attemptsOf l := by
  simp [attemptsOf]

theorem buildTypesOf_append (l1 l2 : List Eff) :
    buildTypesOf (l1 ++ l2) = buildTypesOf l1 ++ buildTypesOf l2 := by
  simp [buildTypesOf]

theorem buildTypesOf_getProject_cons (r : String) (l : List Eff) :
    buildTypesOf (Eff.getProject r :: l) = buildTypesOf l := by
  simp [buildTypesOf]

theorem attemptsOf_nil : attemptsOf ([] : List Eff) = [] := rfl

theorem buildTypesOf_nil : buildTypesOf ([] : List Eff) = [] := rfl

/-- Shape of a validly signed issue-comment run: a project read first,
then the enrichment trace (which contains no build effects), then the
unqualified build call and, for a non-empty action, the qualified one;
the response is the first status written. -/
theorem handler_after_sig (env : HookEnv) (eventType : String)
    (req : Request) (body : List Nat) (ice : IssueCommentEvent) (proj : Project)
    (hbody : req.body = some body) (hparsed : req.parsed = some ice)
    (hproj : env.getProject ice.repoFullName = some proj)
    (hsec : resolvedSecret env proj ≠ [])
    (hsig : req.signature = env.hmac (resolvedSecret env proj) body)
    (hwf : ∀ pr c, env.prGet = Except.ok (pr, c) → c = 200) :
    ∃ (rev1 : Revision) (payload : Option (List Nat)) (early : Option Nat)
      (effs : List Eff),
      handleIssueComment env eventType req =
        (HResp.code (early.getD 200),
          Eff.getProject ice.repoFullName ::
            (effs ++ (buildEffs env eventType rev1 payload proj ++
              (if ice.action ≠ "" then
                buildEffs env (eventType ++ ":" ++ ice.action) rev1 payload proj
              else [])))) ∧
      attemptsOf effs = [] ∧ buildTypesOf effs = [] := by
  have hok : validateSignature env.hmac req.signature (resolvedSecret env proj) body =
      Except.ok () := (validateSignature_ok_iff _ _ _ _).mpr hsig
  by_cases hact : ice.action = "created" ∨ ice.action = "edited"
  · by_cases hpr : ice.hasPRLinks
    · by_cases hauth : isAllowedAuthor env.allowedAuthors ice.authorAssociation
      · cases hstep : handleIssueCommentEventM env ice { commit := "", ref := "" } body with
        | panic e =>
          exact absurd hstep (iceM_no_panic env ice { commit := "", ref := "" } body hwf e)
        | done rev p early effs =>
          have hnb := iceM_no_builds env ice { commit := "", ref := "" } body
          rw [hstep] at hnb
          simp only [ICEResult.effs] at hnb
          refine ⟨if rev.ref = "" then { rev with ref := "refs/heads/master" } else rev,
            p, early, effs, ?_, hnb.1, hnb.2⟩
          rcases hact with h | h <;>
            simp [handleIssueComment, hbody, hparsed, hproj, hsec, hok, h, hpr, hauth, hstep]
      · refine ⟨{ commit := "", ref := "refs/heads/master" }, none, none, [], ?_,
          by simp [attemptsOf], by simp [buildTypesOf]⟩
        rcases hact with h | h <;>
          simp [handleIssueComment, hbody, hparsed, hproj, hsec, hok, h, hpr, hauth]
    · refine ⟨{ commit := "", ref := "refs/heads/master" }, none, none, [], ?_,
        by simp [attemptsOf], by simp [buildTypesOf]⟩
      rcases hact with h | h <;>
        simp [handleIssueComment, hbody, hparsed, hproj, hsec, hok, h, hpr]
  · have h1 : ice.action ≠ "created" := fun h => hact (Or.inl h)
    have h2 : ice.action ≠ "edited" := fun h => hact (Or.inr h)
    refine ⟨{ commit := "", ref := "refs/heads/master" }, none, none, [], ?_,
      by simp [attemptsOf], by simp [buildTypesOf]⟩
    simp [handleIssueComment, hbody, hparsed, hproj, hsec, hok, h1, h2]

/-! ## Theorems: custom-resource helpers -/

theorem goAtoi_pos (s : String) (n : Int) (hgo : goAtoi s = some n) :
    0 < s.length := by
  unfold goAtoi at hgo
  cases hs : s.data with
  | nil =>
    rw [hs] at hgo
    cases hgo
  | cons c cs => simp [String.length, hs]

theorem toCRResult_ne_panic (r : CROutcome) :
    ∀ effs, r.toCRResult ≠ CRResult.panic effs := by
  intro effs hc
  cases r <;> cases hc


/-! ## Claim theorems -/

/-- Claim C1, counterexample: a delivery whose signature does not match
is answered 403, but a store operation has already happened — the
project lookup that resolves the shared secret runs before signature
validation, so "zero store operations (no project lookup)" is false at
this concrete input. -/
theorem badSignature_project_lookup_occurs :
    (handleIssueComment sampleHookEnv "issue_comment" reqBadSig).1 = HResp.code 403 ∧
    Eff.getProject "mumoshu/repo" ∈
      (handleIssueComment sampleHookEnv "issue_comment" reqBadSig).2 := by
  decide

/-- Claim C1 (amended): for every delivery whose signature does not
match, the handler responds 403 and the whole effect trace is the
single project read needed to resolve the secret — zero store writes
(no build creation) and zero remote calls (no token minting, no
pull-request fetch). -/
theorem badSignature_403_no_writes_no_remote (env : HookEnv) (eventType : String)
    (req : Request) (body : List Nat) (ice : IssueCommentEvent) (proj : Project)
    (hbody : req.body = some body) (hparsed : req.parsed = some ice)
    (hproj : env.getProject ice.repoFullName = some proj)
    (hsec : resolvedSecret env proj ≠ [])
    (hsig : req.signature ≠ env.hmac (resolvedSecret env proj) body) :
    handleIssueComment env eventType req =
      (HResp.code 403, [Eff.getProject ice.repoFullName]) ∧
    storeWritesOf (handleIssueComment env eventType req).2 = [] ∧
    remoteCallsOf (handleIssueComment env eventType req).2 = [] ∧
    buildsOf (handleIssueComment env eventType req).2 = [] := by
  have heq : handleIssueComment env eventType req =
      (HResp.code 403, [Eff.getProject ice.repoFullName]) := by
    have herr := validateSignature_err env.hmac req.signature (resolvedSecret env proj) body hsig
    simp [handleIssueComment, hbody, hparsed, hproj, hsec, herr]
  refine ⟨heq, ?_, ?_, ?_⟩ <;> rw [heq] <;>
    simp [storeWritesOf, remoteCallsOf, buildsOf]

theorem badSignature_403_no_writes_no_remote_witness :
    (reqBadSig.body = some [1] ∧
     reqBadSig.parsed = some sampleICE ∧
     sampleHookEnv.getProject sampleICE.repoFullName =
       some { id := "P1", sharedSecret := [5] } ∧
     resolvedSecret sampleHookEnv { id := "P1", sharedSecret := [5] } ≠ [] ∧
     reqBadSig.signature ≠
       sampleHookEnv.hmac
         (resolvedSecret sampleHookEnv { id := "P1", sharedSecret := [5] }) [1]) ∧
    (handleIssueComment sampleHookEnv "issue_comment" reqBadSig =
       (HResp.code 403, [Eff.getProject sampleICE.repoFullName]) ∧
     storeWritesOf (handleIssueComment sampleHookEnv "issue_comment" reqBadSig).2 = [] ∧
     remoteCallsOf (handleIssueComment sampleHookEnv "issue_comment" reqBadSig).2 = [] ∧
     buildsOf (handleIssueComment sampleHookEnv "issue_comment" reqBadSig).2 = []) :=
  ⟨⟨rfl, rfl, rfl, by decide, by decide⟩,
   badSignature_403_no_writes_no_remote sampleHookEnv "issue_comment" reqBadSig
     [1] sampleICE { id := "P1", sharedSecret := [5] }
     rfl rfl rfl (by decide) (by decide)⟩

/-- Claim C2, evaluation at the failing input: with app id 0, the
enrichment authentication step fails and the handler reports 403, yet
processing continues and two build triggers are still created for the
event — contradicting "processing stops: zero build triggers". -/
theorem authFailure_reports_and_still_builds :
    (handleIssueComment sampleHookEnv "issue_comment" reqGoodSig).1 = HResp.code 403 ∧
    buildTypesOf (handleIssueComment sampleHookEnv "issue_comment" reqGoodSig).2 =
      ["issue_comment", "issue_comment:created"] := by
  decide

/-- Claim C3, evaluation at the failing input: with no deletion marker,
the approved annotation absent and the dry-run annotation "true", the
computed action is apply, not plan — Go groups the condition as
`approved = "" or approved = "true" or (approved = "yes" and not dry-run)`,
so the dry-run annotation is consulted only when approved is "yes". -/
theorem dryRun_ignored_when_approved_absent :
    eventTypeActionOf sampleCRHandler false "" "true" =
      sampleCRHandler.eventTypeActionApply ∧
    sampleCRHandler.eventTypeActionApply = "releaseset:apply" ∧
    sampleCRHandler.eventTypeActionPlan = "releaseset:plan" ∧
    crBuildTypesOf (HandleState sampleCRHandler sampleCREnv dryRunObj).effs =
      ["releaseset:apply"] := by
  decide

/-- Claim C4: for candidates of the form `kind` or `kind:action` (kind
and action colon-free; an unqualified candidate has the empty action,
so the qualified comparison degenerates to `kind ++ ":"`), the filter
accepts exactly when some pattern is the wildcard, the kind, or the
qualified pair; consequently `["*"]` accepts everything, `["push"]`
accepts `push` and every `push:<anything>`, and `["push:opened"]`
accepts only that exact string. -/
theorem emissionFilter_spec (ps : List String) (kind act : String)
    (hk : ':' ∉ kind.data) (ha : ':' ∉ act.data) :
    (shouldEmit ps (kind ++ ":" ++ act) = true ↔
      ∃ e ∈ ps, e = "*" ∨ e = kind ∨ e = kind ++ ":" ++ act) ∧
    (shouldEmit ps kind = true ↔
      ∃ e ∈ ps, e = "*" ∨ e = kind ∨ e = kind ++ ":") ∧
    (∀ s : String, shouldEmit ["*"] s = true) ∧
    (shouldEmit ["push"] "push" = true ∧
     shouldEmit ["push"] "push:opened" = true ∧
     shouldEmit ["push"] "push:anything" = true) ∧
    (shouldEmit ["push:opened"] "push:opened" = true ∧
     shouldEmit ["push:opened"] "push" = false ∧
     shouldEmit ["push:opened"] "push:edited" = false) := by
  refine ⟨shouldEmit_qualified ps kind act hk ha,
    shouldEmit_unqualified ps kind hk, ?_, ?_, ?_⟩
  · intro s
    simp [shouldEmit]
  · exact ⟨by decide, by decide, by decide⟩
  · exact ⟨by decide, by decide, by decide⟩

theorem emissionFilter_spec_witness :
    (':' ∉ "push".data ∧ ':' ∉ "opened".data) ∧
    ((shouldEmit ["push"] ("push" ++ ":" ++ "opened") = true ↔
      ∃ e ∈ ["push"], e = "*" ∨ e = "push" ∨ e = "push" ++ ":" ++ "opened") ∧
    (shouldEmit ["push"] "push" = true ↔
      ∃ e ∈ ["push"], e = "*" ∨ e = "push" ∨ e = "push" ++ ":") ∧
    (∀ s : String, shouldEmit ["*"] s = true) ∧
    (shouldEmit ["push"] "push" = true ∧
     shouldEmit ["push"] "push:opened" = true ∧
     shouldEmit ["push"] "push:anything" = true) ∧
    (shouldEmit ["push:opened"] "push:opened" = true ∧
     shouldEmit ["push:opened"] "push" = false ∧
     shouldEmit ["push:opened"] "push:edited" = false)) :=
  ⟨⟨by decide, by decide⟩,
   emissionFilter_spec ["push"] "push" "opened" (by decide) (by decide)⟩

/-- Claim C5: for every delivery that passes signature validation (with
a remote pull-request fetch that only reports 200 on success), the
trigger attempts are exactly the unqualified kind and — when the action
is non-empty — the qualified `kind:action`, and the builds actually
written are exactly the attempts the emission filter accepts. -/
theorem exactly_two_attempts (env : HookEnv) (eventType : String)
    (req : Request) (body : List Nat) (ice : IssueCommentEvent) (proj : Project)
    (hbody : req.body = some body) (hparsed : req.parsed = some ice)
    (hproj : env.getProject ice.repoFullName = some proj)
    (hsec : resolvedSecret env proj ≠ [])
    (hsig : req.signature = env.hmac (resolvedSecret env proj) body)
    (hwf : ∀ pr c, env.prGet = Except.ok (pr, c) → c = 200) :
    attemptsOf (handleIssueComment env eventType req).2 =
      (if ice.action = "" then [eventType]
       else [eventType, eventType ++ ":" ++ ice.action]) ∧
    buildTypesOf (handleIssueComment env eventType req).2 =
      ((if ice.action = "" then [eventType]
        else [eventType, eventType ++ ":" ++ ice.action]).filter
        (shouldEmit env.opts.emittedEvents)) := by
  obtain ⟨rev1, payload, early, effs, heq, ha, hb⟩ :=
    handler_after_sig env eventType req body ice proj hbody hparsed hproj hsec hsig hwf
  rw [heq]
  simp only [attemptsOf_getProject_cons, buildTypesOf_getProject_cons,
    attemptsOf_append, buildTypesOf_append, ha, hb,
    buildEffs_attempts, buildEffs_buildTypes]
  by_cases hact : ice.action = ""
  · by_cases p1 : shouldEmit env.opts.emittedEvents eventType <;>
      simp [hact, p1, attemptsOf_nil, buildTypesOf_nil, buildEffs_attempts,
        buildEffs_buildTypes, List.filter_cons, List.filter_nil]
  · by_cases p1 : shouldEmit env.opts.emittedEvents eventType <;>
      by_cases p2 : shouldEmit env.opts.emittedEvents (eventType ++ ":" ++ ice.action) <;>
      simp [hact, p1, p2, attemptsOf_nil, buildTypesOf_nil, buildEffs_attempts,
        buildEffs_buildTypes, List.filter_cons, List.filter_nil]

theorem exactly_two_attempts_witness :
    (reqGoodSig.body = some [1] ∧
     reqGoodSig.parsed = some sampleICE ∧
     sampleHookEnv.getProject sampleICE.repoFullName =
       some { id := "P1", sharedSecret := [5] } ∧
     resolvedSecret sampleHookEnv { id := "P1", sharedSecret := [5] } ≠ [] ∧
     reqGoodSig.signature =
       sampleHookEnv.hmac
         (resolvedSecret sampleHookEnv { id := "P1", sharedSecret := [5] }) [1] ∧
     (∀ pr c, sampleHookEnv.prGet = Except.ok (pr, c) → c = 200)) ∧
    (attemptsOf (handleIssueComment sampleHookEnv "issue_comment" reqGoodSig).2 =
      (if sampleICE.action = "" then ["issue_comment"]
       else ["issue_comment", "issue_comment" ++ ":" ++ sampleICE.action]) ∧
     buildTypesOf (handleIssueComment sampleHookEnv "issue_comment" reqGoodSig).2 =
      ((if sampleICE.action = "" then ["issue_comment"]
        else ["issue_comment", "issue_comment" ++ ":" ++ sampleICE.action]).filter
        (shouldEmit sampleHookEnv.opts.emittedEvents))) :=
  ⟨⟨rfl, rfl, rfl, by decide, by decide,
    by intro pr c hpc; simp [sampleHookEnv] at hpc; omega⟩,
   exactly_two_attempts sampleHookEnv "issue_comment" reqGoodSig [1] sampleICE
     { id := "P1", sharedSecret := [5] } rfl rfl rfl (by decide) (by decide)
     (by intro pr c hpc; simp [sampleHookEnv] at hpc; omega)⟩

/-- Claim C6: validation succeeds exactly when the supplied signature is
the keyed hash of the body under the secret, fails with an error on
every other value, and the comparison used is the constant-time
equality (whose result is 1 exactly on equal byte lists; the timing
property itself is outside a functional embedding). -/
theorem validateSignature_correct (hmac : List Nat → List Nat → List Nat)
    (signature secretKey payload : List Nat) :
    (validateSignature hmac signature secretKey payload =
      if signature = hmac secretKey payload then Except.ok ()
      else Except.error "payload signature check failed") ∧
    (constantTimeCompare (hmac secretKey payload) signature = 1 ↔
      hmac secretKey payload = signature) := by
  constructor
  · by_cases hs : signature = hmac secretKey payload
    · rw [if_pos hs]
      exact (validateSignature_ok_iff hmac signature secretKey payload).mpr hs
    · rw [if_neg hs]
      exact validateSignature_err hmac signature secretKey payload hs
  · exact constantTimeCompare_eq_one _ _

/-- Claim C7: a created/edited comment with a valid signature whose
author is not allowed (or whose issue has no pull-request linkage)
still proceeds to both emissions, with a nil payload (hence no token)
and the revision ref defaulted to refs/heads/master; the enrichment
trace is empty, so enrichment never gates emission. -/
theorem skip_enrichment (env : HookEnv) (eventType : String)
    (req : Request) (body : List Nat) (ice : IssueCommentEvent) (proj : Project)
    (hbody : req.body = some body) (hparsed : req.parsed = some ice)
    (hproj : env.getProject ice.repoFullName = some proj)
    (hsec : resolvedSecret env proj ≠ [])
    (hsig : req.signature = env.hmac (resolvedSecret env proj) body)
    (haction : ice.action = "created" ∨ ice.action = "edited")
    (hskip : ice.hasPRLinks = false ∨
      isAllowedAuthor env.allowedAuthors ice.authorAssociation = false) :
    handleIssueComment env eventType req =
      (HResp.code 200,
        Eff.getProject ice.repoFullName ::
          (buildEffs env eventType { commit := "", ref := "refs/heads/master" }
              none proj ++
           buildEffs env (eventType ++ ":" ++ ice.action)
              { commit := "", ref := "refs/heads/master" } none proj)) := by
  have hok : validateSignature env.hmac req.signature (resolvedSecret env proj) body =
      Except.ok () := (validateSignature_ok_iff _ _ _ _).mpr hsig
  rcases haction with h | h <;> rcases hskip with h2 | h2
  · simp [handleIssueComment, hbody, hparsed, hproj, hsec, hok, h, h2]
  · by_cases hpr : ice.hasPRLinks <;>
      simp [handleIssueComment, hbody, hparsed, hproj, hsec, hok, h, h2, hpr]
  · simp [handleIssueComment, hbody, hparsed, hproj, hsec, hok, h, h2]
  · by_cases hpr : ice.hasPRLinks <;>
      simp [handleIssueComment, hbody, hparsed, hproj, hsec, hok, h, h2, hpr]

theorem skip_enrichment_witness :
    (reqOutsider.body = some [1] ∧
     reqOutsider.parsed = some outsiderICE ∧
     sampleHookEnv.getProject outsiderICE.repoFullName =
       some { id := "P1", sharedSecret := [5] } ∧
     resolvedSecret sampleHookEnv { id := "P1", sharedSecret := [5] } ≠ [] ∧
     reqOutsider.signature =
       sampleHookEnv.hmac
         (resolvedSecret sampleHookEnv { id := "P1", sharedSecret := [5] }) [1] ∧
     (outsiderICE.action = "created" ∨ outsiderICE.action = "edited") ∧
     (outsiderICE.hasPRLinks = false ∨
       isAllowedAuthor sampleHookEnv.allowedAuthors outsiderICE.authorAssociation = false)) ∧
    handleIssueComment sampleHookEnv "issue_comment" reqOutsider =
      (HResp.code 200,
        Eff.getProject outsiderICE.repoFullName ::
          (buildEffs sampleHookEnv "issue_comment"
              { commit := "", ref := "refs/heads/master" } none
              { id := "P1", sharedSecret := [5] } ++
           buildEffs sampleHookEnv ("issue_comment" ++ ":" ++ outsiderICE.action)
              { commit := "", ref := "refs/heads/master" } none
              { id := "P1", sharedSecret := [5] })) :=
  ⟨⟨rfl, rfl, rfl, by decide, by decide, Or.inl (by decide), Or.inr (by decide)⟩,
   skip_enrichment sampleHookEnv "issue_comment" reqOutsider [1] outsiderICE
     { id := "P1", sharedSecret := [5] } rfl rfl rfl (by decide) (by decide)
     (Or.inl (by decide)) (Or.inr (by decide))⟩

/-- Claim C8, evaluation at the failing input: a deletion-marked
snapshot yields exactly one trigger, of the qualified destroy type, and
the reconciliation succeeds — but the packed object still carries the
original empty status phase: the Go code sets "completed" on a by-value
copy of the object that is never packed back. -/
theorem destroy_single_trigger_phase_lost :
    crBuildTypesOf (HandleState sampleCRHandler sampleCREnv deletionObj).effs =
      ["releaseset:destroy"] ∧
    (HandleState sampleCRHandler sampleCREnv deletionObj).packed = some deletionObj ∧
    deletionObj.statusPhase = "" := by
  decide

/-- Claim C9: when the target project lookup fails, HandleState returns
an error whose whole effect trace is that single read — no build is
created, no token minted, and nothing is packed back, so the status
phase is untouched. -/
theorem handleState_project_missing (h : CRHandler) (env : CREnv) (o : RObject)
    (hrepo : '/' ∈ (annGet o.annotations "cd.brigade.sh/git-repo").data)
    (hinst : annGet o.annotations "cd.brigade.sh/github-app-inst-id" = "" ∨
      ∃ n, goAtoi (annGet o.annotations "cd.brigade.sh/github-app-inst-id") = some n)
    (hproj : env.getProject h.brigadeProject = none) :
    HandleState h env o = CRResult.err [CREff.getProject h.brigadeProject] := by
  simp only [HandleState]
  have hlen : 2 ≤ (stringsSplit (annGet o.annotations "cd.brigade.sh/git-repo") '/').length :=
    splitOnChar_length_ge_two _ _ hrepo
  have h1 : 1 < (stringsSplit (annGet o.annotations "cd.brigade.sh/git-repo") '/').length := by
    omega
  rw [List.get?_eq_get h1]
  rcases hinst with hi | ⟨n, hi⟩
  · simp [handleStateRest, CROutcome.toCRResult, hi, hproj]
  · have hpos := goAtoi_pos _ _ hi
    simp [handleStateRest, CROutcome.toCRResult, hi, hproj, hpos]

theorem handleState_project_missing_witness :
    ('/' ∈ (annGet deletionObj.annotations "cd.brigade.sh/git-repo").data ∧
     (annGet deletionObj.annotations "cd.brigade.sh/github-app-inst-id" = "" ∨
       ∃ n, goAtoi (annGet deletionObj.annotations "cd.brigade.sh/github-app-inst-id") =
         some n) ∧
     emptyStoreCREnv.getProject sampleCRHandler.brigadeProject = none) ∧
    HandleState sampleCRHandler emptyStoreCREnv deletionObj =
      CRResult.err [CREff.getProject sampleCRHandler.brigadeProject] :=
  ⟨⟨by decide, Or.inl (by decide), rfl⟩,
   handleState_project_missing sampleCRHandler emptyStoreCREnv deletionObj
     (by decide) (Or.inl (by decide)) rfl⟩

/-- Claim C10: when the git-repo annotation contains a slash, the split
has at least two segments, so the unchecked indexing at positions 0 and
1 is in bounds and the panic outcome of HandleState is unreachable. -/
theorem gitRepoSplit_safe (gitRepo : String) (hs : '/' ∈ gitRepo.data) :
    2 ≤ (stringsSplit gitRepo '/').length ∧
    ∀ (h : CRHandler) (env : CREnv) (o : RObject),
      annGet o.annotations "cd.brigade.sh/git-repo" = gitRepo →
      ∀ effs, HandleState h env o ≠ CRResult.panic effs := by
  have hlen : 2 ≤ (stringsSplit gitRepo '/').length :=
    splitOnChar_length_ge_two _ _ hs
  refine ⟨hlen, ?_⟩
  intro h env o hann effs hc
  simp only [HandleState] at hc
  rw [hann] at hc
  have h1 : 1 < (stringsSplit gitRepo '/').length := by omega
  rw [List.get?_eq_get h1] at hc
  exact toCRResult_ne_panic _ effs hc

theorem gitRepoSplit_safe_witness :
    ('/' ∈ "mumoshu/demo".data) ∧
    2 ≤ (stringsSplit "mumoshu/demo" '/').length ∧
    HandleState sampleCRHandler sampleCREnv deletionObj ≠ CRResult.panic [] :=
  ⟨by decide, (gitRepoSplit_safe "mumoshu/demo" (by decide)).1,
   (gitRepoSplit_safe "mumoshu/demo" (by decide)).2 sampleCRHandler sampleCREnv
     deletionObj (by decide) []⟩

end BrigadeCD
